import Mathlib

/-
Verification of the glam-by-lynn commerce specification against the repository.

The repository's src/ tree contains only the storefront client (product detail
page, header, review submission form, review API utilities, star rating widget)
and setup scripts.  The commerce transaction engine the specification describes
(Inventory Ledger, Booking Allocator, Pricing Engine, Orchestrator) is not under
src/, so those components are modelled from the specification's own words; the
doc comment of each such definition starts with "Modelled from the spec:".
The storefront definitions (effectivePrice, displayCents, hasUserReviewedProduct,
handleSubmit) are translated directly from the TypeScript sources under src/.
-/

namespace GlamByLynn

/-- Modelled from the spec: the Inventory Ledger's failure taxonomy (sections 4.1
and 7 of the specification); the ledger implementation itself is not under src/. -/
inductive LedgerError where
  | InsufficientStock
  | ProductNotFound
  | ReservationExpired
  | ReservationNotFound
deriving DecidableEq, Repr

/-- Modelled from the spec: a Reservation is ephemeral: quantity, expiry timestamp
and owning request id (section 3; the ledger is kept per product, so the product
reference is implicit).  `resId` is the reservation's own identifier. -/
structure Reservation where
  resId : Nat
  qty : Nat
  requestId : Nat
  expiry : Nat
deriving DecidableEq, Repr

/-- Modelled from the spec: per-product state of the Catalog Store as the Inventory
Ledger manipulates it (sections 3 and 4.1).  `committedDecs` and `restocks` are the
histories of committed decrements and restocks, recorded so that the stock equation
of section 8 can be stated.  `stockCount` is an integer so that non-negativity is a
real invariant rather than a typing artifact. -/
structure PLedger where
  initialStock : Nat
  stockCount : Int
  reservations : List Reservation
  committedDecs : List Nat
  restocks : List Nat
deriving DecidableEq, Repr

/-- Total quantity held by a list of reservations. -/
def sumQty (rs : List Reservation) : Nat :=
  (rs.map Reservation.qty).sum

/-- Modelled from the spec: `available = stockCount - sum(activeReservations)`
(section 4.1). -/
def PLedger.available (l : PLedger) : Int :=
  l.stockCount - (sumQty l.reservations : Int)

/-- Modelled from the spec: sweeping releases reservations whose ttl has strictly
elapsed (sections 4.1 and 5). -/
def PLedger.sweep (l : PLedger) (now : Nat) : PLedger :=
  { l with reservations := l.reservations.filter (fun r => decide (now ≤ r.expiry)) }

/-- Modelled from the spec: `reserve(productId, quantity, requestId, ttl)` atomically
checks `available ≥ quantity` and on success records a Reservation expiring at
`now + ttl` without touching `stockCount` (section 4.1).  Expired reservations are
released lazily on access before the check.  The reservation id is supplied by the
caller, since the spec does not fix an id-generation scheme. -/
def PLedger.reserve (l : PLedger) (qty ttl requestId resId now : Nat) :
    Except LedgerError (Nat × PLedger) :=
  let ls := l.sweep now
  if (qty : Int) ≤ ls.available then
    .ok (resId, { ls with reservations := ⟨resId, qty, requestId, now + ttl⟩ :: ls.reservations })
  else
    .error .InsufficientStock

/-- First reservation with the given id, if any. -/
def findRes (resId : Nat) : List Reservation → Option Reservation
  | [] => none
  | r :: rs => if r.resId = resId then some r else findRes resId rs

/-- Remove the first reservation with the given id. -/
def removeFirst (resId : Nat) : List Reservation → List Reservation
  | [] => []
  | r :: rs => if r.resId = resId then rs else r :: removeFirst resId rs

/-- Modelled from the spec: `commit(reservationId)` converts the reservation into a
permanent `stockCount` decrement; it re-validates the ttl at commit time and fails
with ReservationExpired on a stale commit attempt (sections 4.1 and 5). -/
def PLedger.commit (l : PLedger) (resId now : Nat) : Except LedgerError PLedger :=
  match findRes resId l.reservations with
  | none => .error .ReservationNotFound
  | some r =>
    if r.expiry < now then
      .error .ReservationExpired
    else
      .ok { l with
        stockCount := l.stockCount - (r.qty : Int),
        reservations := removeFirst resId l.reservations,
        committedDecs := r.qty :: l.committedDecs }

/-- Modelled from the spec: `release(reservationId)` discards the reservation,
restoring availability; it never fails and is a no-op when the id is absent
(section 4.1). -/
def PLedger.release (l : PLedger) (resId : Nat) : PLedger :=
  { l with reservations := l.reservations.filter (fun r => decide (r.resId ≠ resId)) }

/-- Modelled from the spec: a restock increments the committed stock count
(section 8 counts restocks in the stock equation). -/
def PLedger.restock (l : PLedger) (q : Nat) : PLedger :=
  { l with stockCount := l.stockCount + (q : Int), restocks := q :: l.restocks }

/-- Modelled from the spec: the operations a single product's ledger state is driven
by; commits and reserves that fail leave the state unchanged (section 4.1). -/
inductive LedgerOp where
  | reserve (qty ttl requestId resId now : Nat)
  | commit (resId now : Nat)
  | release (resId : Nat)
  | restock (q : Nat)
  | sweep (now : Nat)
deriving DecidableEq, Repr

/-- Apply one ledger operation; failing operations leave the state unchanged. -/
def PLedger.applyOp (l : PLedger) : LedgerOp → PLedger
  | .reserve q ttl reqId rid now =>
    match l.reserve q ttl reqId rid now with
    | .ok (_, l₂) => l₂
    | .error _ => l
  | .commit rid now =>
    match l.commit rid now with
    | .ok l₂ => l₂
    | .error _ => l
  | .release rid => l.release rid
  | .restock q => l.restock q
  | .sweep now => l.sweep now

/-- A fresh per-product ledger with the given initial stock. -/
def PLedger.init (s : Nat) : PLedger :=
  ⟨s, (s : Int), [], [], []⟩

/-- Run a sequence of ledger operations. -/
def PLedger.run (l : PLedger) (ops : List LedgerOp) : PLedger :=
  ops.foldl PLedger.applyOp l

/-- The ledger invariant: active reservations never exceed the committed stock, and
the committed stock equals the initial stock minus committed decrements plus
restocks. -/
def StockInv (l : PLedger) : Prop :=
  (sumQty l.reservations : Int) ≤ l.stockCount ∧
  l.stockCount = (l.initialStock : Int) - (l.committedDecs.sum : Int) + (l.restocks.sum : Int)

theorem sumQty_nil : sumQty [] = 0 := rfl

theorem sumQty_cons (r : Reservation) (rs : List Reservation) :
    sumQty (r :: rs) = r.qty + sumQty rs := by
  simp [sumQty]

theorem sumQty_filter_le (p : Reservation → Bool) (rs : List Reservation) :
    sumQty (rs.filter p) ≤ sumQty rs := by
  induction rs with
  | nil => simp [sumQty]
  | cons r rs ih =>
    by_cases h : p r
    · simp [List.filter_cons, h, sumQty_cons]
      omega
    · simp [List.filter_cons, h, sumQty_cons]
      omega

theorem sumQty_removeFirst (rid : Nat) (rs : List Reservation) (r : Reservation)
    (h : findRes rid rs = some r) :
    sumQty rs = r.qty + sumQty (removeFirst rid rs) := by
  induction rs with
  | nil => simp [findRes] at h
  | cons a rs ih =>
    by_cases ha : a.resId = rid
    · simp [findRes, ha] at h
      subst h
      simp [removeFirst, ha, sumQty_cons]
    · simp [findRes, ha] at h
      have := ih h
      simp [removeFirst, ha, sumQty_cons]
      omega

theorem stockInv_sweep (l : PLedger) (now : Nat) (h : StockInv l) :
    StockInv (l.sweep now) := by
  obtain ⟨h1, h2⟩ := h
  refine ⟨?_, h2⟩
  have := sumQty_filter_le (fun r => decide (now ≤ r.expiry)) l.reservations
  simp only [PLedger.sweep]
  omega

theorem stockInv_release (l : PLedger) (rid : Nat) (h : StockInv l) :
    StockInv (l.release rid) := by
  obtain ⟨h1, h2⟩ := h
  refine ⟨?_, h2⟩
  have := sumQty_filter_le (fun r => decide (r.resId ≠ rid)) l.reservations
  simp only [PLedger.release]
  omega

theorem stockInv_restock (l : PLedger) (q : Nat) (h : StockInv l) :
    StockInv (l.restock q) := by
  obtain ⟨h1, h2⟩ := h
  constructor
  · simpa [PLedger.restock] using by omega
  · simp only [PLedger.restock, List.sum_cons, Nat.cast_add]
    omega

theorem stockInv_reserve (l : PLedger) (q ttl reqId rid now : Nat) (rid₂ : Nat) (l₂ : PLedger)
    (h : StockInv l) (hres : l.reserve q ttl reqId rid now = .ok (rid₂, l₂)) :
    StockInv l₂ := by
  have hs := stockInv_sweep l now h
  obtain ⟨h1, h2⟩ := hs
  simp only [PLedger.reserve] at hres
  by_cases hc : (q : Int) ≤ (l.sweep now).available
  · simp only [hc, if_pos] at hres
    obtain ⟨-, rfl⟩ := Except.ok.inj hres
    constructor
    · simp only [sumQty_cons]
      have : (l.sweep now).available = (l.sweep now).stockCount -
          (sumQty (l.sweep now).reservations : Int) := rfl
      push_cast
      omega
    · exact h2
  · simp [hc] at hres

theorem stockInv_commit (l : PLedger) (rid now : Nat) (l₂ : PLedger)
    (h : StockInv l) (hc : l.commit rid now = .ok l₂) : StockInv l₂ := by
  obtain ⟨h1, h2⟩ := h
  simp only [PLedger.commit] at hc
  cases hf : findRes rid l.reservations with
  | none => simp [hf] at hc
  | some r =>
    simp only [hf] at hc
    by_cases he : r.expiry < now
    · simp [he] at hc
    · simp only [he, if_neg, if_pos, not_false_eq_true] at hc
      obtain rfl := Except.ok.inj hc
      have hsum := sumQty_removeFirst rid l.reservations r hf
      constructor
      · simp only []
        omega
      · simp only [List.sum_cons, Nat.cast_add]
        omega

theorem stockInv_applyOp (l : PLedger) (op : LedgerOp) (h : StockInv l) :
    StockInv (l.applyOp op) := by
  cases op with
  | reserve q ttl reqId rid now =>
    simp only [PLedger.applyOp]
    cases hres : l.reserve q ttl reqId rid now with
    | ok p =>
      obtain ⟨rid₂, l₂⟩ := p
      exact stockInv_reserve l q ttl reqId rid now rid₂ l₂ h hres
    | error _ => exact h
  | commit rid now =>
    simp only [PLedger.applyOp]
    cases hc : l.commit rid now with
    | ok l₂ => exact stockInv_commit l rid now l₂ h hc
    | error _ => exact h
  | release rid => exact stockInv_release l rid h
  | restock q => exact stockInv_restock l q h
  | sweep now => exact stockInv_sweep l now h

theorem initialStock_applyOp (l : PLedger) (op : LedgerOp) :
    (l.applyOp op).initialStock = l.initialStock := by
  cases op with
  | reserve q ttl reqId rid now =>
    simp only [PLedger.applyOp]
    cases hres : l.reserve q ttl reqId rid now with
    | ok p =>
      simp only [PLedger.reserve] at hres
      by_cases hc : (q : Int) ≤ (l.sweep now).available
      · simp only [hc, if_pos] at hres
        obtain ⟨-, rfl⟩ := Except.ok.inj hres
        rfl
      · simp [hc] at hres
    | error _ => rfl
  | commit rid now =>
    simp only [PLedger.applyOp]
    cases hc : l.commit rid now with
    | ok l₂ =>
      simp only [PLedger.commit] at hc
      cases hf : findRes rid l.reservations with
      | none => simp [hf] at hc
      | some r =>
        simp only [hf] at hc
        by_cases he : r.expiry < now
        · simp [he] at hc
        · simp only [he, if_neg, not_false_eq_true] at hc
          obtain rfl := Except.ok.inj hc
          rfl
    | error _ => rfl
  | release rid => rfl
  | restock q => rfl
  | sweep now => rfl

theorem stockInv_run (l : PLedger) (ops : List LedgerOp) (h : StockInv l) :
    StockInv (l.run ops) := by
  induction ops generalizing l with
  | nil => exact h
  | cons op ops ih => exact ih (l.applyOp op) (stockInv_applyOp l op h)

theorem initialStock_run (l : PLedger) (ops : List LedgerOp) :
    (l.run ops).initialStock = l.initialStock := by
  induction ops generalizing l with
  | nil => rfl
  | cons op ops ih =>
    calc ((l.applyOp op).run ops).initialStock
        = (l.applyOp op).initialStock := ih (l.applyOp op)
      _ = l.initialStock := initialStock_applyOp l op

theorem stockInv_init (s : Nat) : StockInv (PLedger.init s) := by
  constructor <;> simp [PLedger.init, sumQty]

/-- C1: in every committed state reachable from an initial stock of `s`, the
product's stock count is non-negative and equals the initial stock minus the sum
of committed decrements plus the sum of restocks; reservations only ever reduce
availability, never the committed stock below zero. -/
theorem claim_C1_stock_invariant (s : Nat) (ops : List LedgerOp) :
    0 ≤ ((PLedger.init s).run ops).stockCount ∧
    ((PLedger.init s).run ops).stockCount =
      (s : Int) - (((PLedger.init s).run ops).committedDecs.sum : Int)
        + (((PLedger.init s).run ops).restocks.sum : Int) := by
  have hinv := stockInv_run (PLedger.init s) ops (stockInv_init s)
  obtain ⟨h1, h2⟩ := hinv
  have hinit := initialStock_run (PLedger.init s) ops
  constructor
  · have hn : (0 : Int) ≤ (sumQty ((PLedger.init s).run ops).reservations : Int) := by
      exact_mod_cast Nat.zero_le _
    omega
  · rw [h2, hinit]
    rfl

/-- Modelled from the spec: booking lifecycle statuses (section 3). -/
inductive BookingStatus where
  | pending
  | confirmed
  | cancelled
deriving DecidableEq, Repr

/-- Modelled from the spec: a Booking holds a half-open interval
[startT, endT) on a resource, with a status and a ttl expiry for pending holds
(sections 3 and 4.2); the allocator code itself is not under src/. -/
structure Booking where
  bid : Nat
  resource : Nat
  startT : Nat
  endT : Nat
  status : BookingStatus
  expiry : Nat
  requestId : Nat
deriving DecidableEq, Repr

/-- Modelled from the spec: the Booking Allocator's failure taxonomy
(sections 4.2 and 7). -/
inductive AllocError where
  | SlotUnavailable
  | SlotNotFound
  | ReservationExpired
  | BookingNotFound
deriving DecidableEq, Repr

/-- A booking currently holds its interval when it is pending or confirmed. -/
def Booking.heldB (b : Booking) : Bool :=
  b.status == .pending || b.status == .confirmed

/-- Modelled from the spec: the overlap test used by `hold`: an existing pending or
confirmed booking for the same resource conflicts when
`existingStart < requestedEnd AND requestedStart < existingEnd` (section 4.2). -/
def conflictsWith (resource s e : Nat) (b : Booking) : Bool :=
  b.heldB && (b.resource == resource) && decide (b.startT < e) && decide (s < b.endT)

namespace Alloc

/-- Modelled from the spec: `hold(slotQuery, requestId, ttl)` rejects with
SlotUnavailable when any existing pending or confirmed booking for the resource
overlaps the requested [s, e) interval, and otherwise atomically inserts a pending
booking expiring at `now + ttl` (section 4.2).  Expiry of stale holds is performed
by the separate sweep operation. -/
def hold (cal : List Booking) (resource s e requestId bid ttl now : Nat) :
    Except AllocError (Nat × List Booking) :=
  if cal.any (conflictsWith resource s e) then
    .error .SlotUnavailable
  else
    .ok (bid, ⟨bid, resource, s, e, .pending, now + ttl, requestId⟩ :: cal)

/-- Modelled from the spec: `confirm(bookingId)` promotes a pending hold to
confirmed; it fails when the hold has expired (re-validating the ttl at confirm
time) or was already cancelled, and is idempotent on an already confirmed booking
(sections 4.2 and 5). -/
def confirm (cal : List Booking) (bid now : Nat) : Except AllocError (List Booking) :=
  match cal.find? (fun b => b.bid == bid) with
  | none => .error .BookingNotFound
  | some b =>
    match b.status with
    | .cancelled => .error .BookingNotFound
    | .confirmed => .ok cal
    | .pending =>
      if b.expiry < now then
        .error .ReservationExpired
      else
        .ok (cal.map (fun x =>
          if x.bid == bid && x.status == .pending then { x with status := .confirmed } else x))

/-- Modelled from the spec: `release(bookingId)` transitions the booking to
cancelled, freeing its interval; it is idempotent and never fails (section 4.2). -/
def release (cal : List Booking) (bid : Nat) : List Booking :=
  cal.map (fun x => if x.bid == bid then { x with status := .cancelled } else x)

/-- Modelled from the spec: the ttl sweep cancels pending holds whose ttl has
strictly elapsed (sections 4.2 and 5). -/
def sweep (cal : List Booking) (now : Nat) : List Booking :=
  cal.map (fun b =>
    if b.status == .pending && decide (b.expiry < now) then { b with status := .cancelled } else b)

/-- Modelled from the spec: the operations driving the slot calendar; failing
operations leave the calendar unchanged. -/
inductive Op where
  | hold (resource s e requestId bid ttl now : Nat)
  | confirm (bid now : Nat)
  | release (bid : Nat)
  | sweep (now : Nat)
deriving DecidableEq, Repr

/-- Apply one allocator operation; failing operations leave the state unchanged. -/
def applyOp (cal : List Booking) : Op → List Booking
  | .hold resource s e reqId bid ttl now =>
    match hold cal resource s e reqId bid ttl now with
    | .ok (_, cal₂) => cal₂
    | .error _ => cal
  | .confirm bid now =>
    match confirm cal bid now with
    | .ok cal₂ => cal₂
    | .error _ => cal
  | .release bid => release cal bid
  | .sweep now => sweep cal now

/-- Run a sequence of allocator operations from a calendar. -/
def run (cal : List Booking) (ops : List Op) : List Booking :=
  ops.foldl applyOp cal

end Alloc

/-- No two bookings that currently hold their interval (pending or confirmed) on
the same resource have overlapping [start, end) intervals. -/
def NoOverlap (cal : List Booking) : Prop :=
  cal.Pairwise (fun b₁ b₂ => b₁.heldB = true → b₂.heldB = true →
    b₁.resource = b₂.resource → ¬(b₁.startT < b₂.endT ∧ b₂.startT < b₁.endT))

theorem noOverlap_map (f : Booking → Booking)
    (hres : ∀ b, (f b).resource = b.resource)
    (hs : ∀ b, (f b).startT = b.startT)
    (he : ∀ b, (f b).endT = b.endT)
    (hheld : ∀ b, (f b).heldB = true → b.heldB = true)
    (cal : List Booking) (h : NoOverlap cal) : NoOverlap (cal.map f) := by
  rw [NoOverlap, List.pairwise_map]
  refine h.imp ?_
  intro a b hab h1 h2 h3 ho
  refine hab (hheld a h1) (hheld b h2) ?_ ?_
  · rw [hres, hres] at h3
    exact h3
  · rw [hs, he, hs, he] at ho
    exact ho

theorem noOverlap_hold (cal : List Booking) (resource s e reqId bid ttl now : Nat)
    (bid₂ : Nat) (cal₂ : List Booking) (h : NoOverlap cal)
    (hok : Alloc.hold cal resource s e reqId bid ttl now = .ok (bid₂, cal₂)) :
    NoOverlap cal₂ := by
  simp only [Alloc.hold] at hok
  by_cases hc : cal.any (conflictsWith resource s e)
  · simp [hc] at hok
  · simp only [hc, if_neg, Bool.false_eq_true, not_false_eq_true, if_pos] at hok
    obtain ⟨-, rfl⟩ := Except.ok.inj hok
    rw [Bool.not_eq_true, List.any_eq_false] at hc
    refine List.Pairwise.cons ?_ h
    intro b hb h1 h2 h3 ho
    have hcb := hc b hb
    have hct : conflictsWith resource s e b = true := by
      simp only [conflictsWith, Bool.and_eq_true, beq_iff_eq, decide_eq_true_eq]
      exact ⟨⟨⟨h2, by simpa using h3.symm⟩, by simpa using ho.2⟩, by simpa using ho.1⟩
    exact hcb hct

theorem noOverlap_applyOp (cal : List Booking) (op : Alloc.Op) (h : NoOverlap cal) :
    NoOverlap (Alloc.applyOp cal op) := by
  cases op with
  | hold resource s e reqId bid ttl now =>
    simp only [Alloc.applyOp]
    cases hres : Alloc.hold cal resource s e reqId bid ttl now with
    | ok p =>
      obtain ⟨bid₂, cal₂⟩ := p
      exact noOverlap_hold cal resource s e reqId bid ttl now bid₂ cal₂ h hres
    | error _ => exact h
  | confirm bid now =>
    simp only [Alloc.applyOp]
    cases hc : Alloc.confirm cal bid now with
    | ok cal₂ =>
      simp only [Alloc.confirm] at hc
      cases hf : cal.find? (fun b => b.bid == bid) with
      | none => simp [hf] at hc
      | some b =>
        simp only [hf] at hc
        cases hst : b.status with
        | cancelled => simp [hst] at hc
        | confirmed =>
          simp only [hst] at hc
          obtain rfl := Except.ok.inj hc
          exact h
        | pending =>
          simp only [hst] at hc
          by_cases he : b.expiry < now
          · simp [he] at hc
          · simp only [he, if_neg, not_false_eq_true] at hc
            obtain rfl := Except.ok.inj hc
            refine noOverlap_map _ ?_ ?_ ?_ ?_ cal h <;> intro x
            · by_cases hx : x.bid == bid && x.status == BookingStatus.pending <;> simp [hx]
            · by_cases hx : x.bid == bid && x.status == BookingStatus.pending <;> simp [hx]
            · by_cases hx : x.bid == bid && x.status == BookingStatus.pending <;> simp [hx]
            · by_cases hx : x.bid == bid && x.status == BookingStatus.pending
              · simp only [hx, if_pos]
                intro ha
                rw [Bool.and_eq_true] at hx
                simp only [Booking.heldB, hx.2, Bool.true_or, implies_true]
              · simp [hx]
    | error _ => exact h
  | release bid =>
    refine noOverlap_map _ ?_ ?_ ?_ ?_ cal h <;> intro x
    · by_cases hx : x.bid == bid <;> simp [Alloc.release, hx]
    · by_cases hx : x.bid == bid <;> simp [hx]
    · by_cases hx : x.bid == bid <;> simp [hx]
    · by_cases hx : x.bid == bid
      · simp [hx, Booking.heldB]
      · simp [hx]
  | sweep now =>
    refine noOverlap_map _ ?_ ?_ ?_ ?_ cal h <;> intro x
    · by_cases hx : x.status == BookingStatus.pending && decide (x.expiry < now) <;> simp [hx]
    · by_cases hx : x.status == BookingStatus.pending && decide (x.expiry < now) <;> simp [hx]
    · by_cases hx : x.status == BookingStatus.pending && decide (x.expiry < now) <;> simp [hx]
    · by_cases hx : x.status == BookingStatus.pending && decide (x.expiry < now)
      · simp [hx, Booking.heldB]
      · simp [hx]

theorem noOverlap_run (cal : List Booking) (ops : List Alloc.Op) (h : NoOverlap cal) :
    NoOverlap (Alloc.run cal ops) := by
  induction ops generalizing cal with
  | nil => exact h
  | cons op ops ih => exact ih (Alloc.applyOp cal op) (noOverlap_applyOp cal op h)

/-- C2: the slot calendar never double-books: in every state reachable from the
empty calendar no two pending or confirmed bookings on the same resource have
overlapping [start, end) intervals, and `hold` rejects with SlotUnavailable
whenever some existing pending or confirmed booking for the requested resource
satisfies the half-open overlap test
existingStart < requestedEnd AND requestedStart < existingEnd. -/
theorem claim_C2_no_double_booking (ops : List Alloc.Op) :
    NoOverlap (Alloc.run [] ops) ∧
    ∀ (cal : List Booking) (resource s e reqId bid ttl now : Nat),
      (∃ b ∈ cal, (b.status = .pending ∨ b.status = .confirmed) ∧ b.resource = resource ∧
        b.startT < e ∧ s < b.endT) →
      Alloc.hold cal resource s e reqId bid ttl now = .error .SlotUnavailable := by
  constructor
  · exact noOverlap_run [] ops (List.Pairwise.nil)
  · intro cal resource s e reqId bid ttl now hex
    obtain ⟨b, hb, hst, hres, h1, h2⟩ := hex
    have hany : cal.any (conflictsWith resource s e) = true := by
      rw [List.any_eq_true]
      refine ⟨b, hb, ?_⟩
      simp only [conflictsWith, Booking.heldB, Bool.and_eq_true, Bool.or_eq_true, beq_iff_eq,
        decide_eq_true_eq]
      exact ⟨⟨⟨hst, hres⟩, h1⟩, h2⟩
    simp [Alloc.hold, hany]

/-- Witness for C2 at a concrete calendar: one pending booking on resource 5 over
[10, 20) blocks a requested hold over [15, 25). -/
theorem claim_C2_witness :
    NoOverlap (Alloc.run [] []) ∧
    Alloc.hold [⟨1, 5, 10, 20, .pending, 99, 7⟩] 5 15 25 8 2 30 0 =
      .error .SlotUnavailable := by
  refine ⟨(claim_C2_no_double_booking []).1, ?_⟩
  refine (claim_C2_no_double_booking []).2 [⟨1, 5, 10, 20, .pending, 99, 7⟩] 5 15 25 8 2 30 0 ?_
  exact ⟨⟨1, 5, 10, 20, .pending, 99, 7⟩, by simp, by decide⟩

/-- C7: a reservation or hold is never committed or confirmed after its ttl has
elapsed: `commit` fails with ReservationExpired on an expired reservation,
`confirm` fails with ReservationExpired on an expired pending hold, and whenever
`commit` succeeds the committed reservation was still within its ttl — in every
state, so independently of whether any sweep has run. -/
theorem claim_C7_no_commit_after_expiry (l : PLedger) (resId now : Nat) :
    (∀ r, findRes resId l.reservations = some r → r.expiry < now →
      l.commit resId now = .error .ReservationExpired) ∧
    (∀ (cal : List Booking) (bid now₂ : Nat) (b : Booking),
      cal.find? (fun x => x.bid == bid) = some b → b.status = .pending →
      b.expiry < now₂ → Alloc.confirm cal bid now₂ = .error .ReservationExpired) ∧
    (∀ l₂, l.commit resId now = .ok l₂ →
      ∃ r, findRes resId l.reservations = some r ∧ now ≤ r.expiry) := by
  refine ⟨?_, ?_, ?_⟩
  · intro r hf he
    simp [PLedger.commit, hf, he]
  · intro cal bid now₂ b hf hst he
    simp [Alloc.confirm, hf, hst, he]
  · intro l₂ hc
    simp only [PLedger.commit] at hc
    cases hf : findRes resId l.reservations with
    | none => simp [hf] at hc
    | some r =>
      simp only [hf] at hc
      by_cases he : r.expiry < now
      · simp [he] at hc
      · exact ⟨r, rfl, by omega⟩

/-- Witness for C7 at a concrete state: a reservation that expired at time 5 is
refused by a commit at time 6, and a pending hold that expired at time 5 is
refused by a confirm at time 6. -/
theorem claim_C7_witness :
    PLedger.commit ⟨10, 10, [⟨3, 2, 1, 5⟩], [], []⟩ 3 6 = .error .ReservationExpired ∧
    Alloc.confirm [⟨4, 9, 10, 20, .pending, 5, 1⟩] 4 6 = .error .ReservationExpired := by
  constructor
  · exact (claim_C7_no_commit_after_expiry ⟨10, 10, [⟨3, 2, 1, 5⟩], [], []⟩ 3 6).1
      ⟨3, 2, 1, 5⟩ (by decide) (by decide)
  · exact (claim_C7_no_commit_after_expiry ⟨10, 10, [⟨3, 2, 1, 5⟩], [], []⟩ 3 6).2.1
      [⟨4, 9, 10, 20, .pending, 5, 1⟩] 4 6 ⟨4, 9, 10, 20, .pending, 5, 1⟩
      (by decide) (by decide) (by decide)

theorem filter_eq_self_of_forall {α : Type} (p : α → Bool) (l : List α)
    (h : ∀ a ∈ l, p a = true) : l.filter p = l := by
  induction l with
  | nil => rfl
  | cons a l ih =>
    rw [List.filter_cons, if_pos (h a (List.mem_cons_self a l))]
    rw [ih (fun b hb => h b (List.mem_cons_of_mem a hb))]

theorem map_eq_self_of_forall {α : Type} (f : α → α) (l : List α)
    (h : ∀ a ∈ l, f a = a) : l.map f = l := by
  induction l with
  | nil => rfl
  | cons a l ih =>
    rw [List.map_cons, h a (List.mem_cons_self a l)]
    rw [ih (fun b hb => h b (List.mem_cons_of_mem a hb))]

/-- C8: `release` never fails (it is a total function on both the ledger and the
calendar) and is idempotent: releasing twice equals releasing once, and releasing
an id that no longer holds anything (already released or committed on the ledger,
already cancelled on the calendar) changes nothing. -/
theorem claim_C8_release_idempotent (l : PLedger) (resId : Nat)
    (cal : List Booking) (bid : Nat) :
    (l.release resId).release resId = l.release resId ∧
    ((∀ r ∈ l.reservations, r.resId ≠ resId) → l.release resId = l) ∧
    Alloc.release (Alloc.release cal bid) bid = Alloc.release cal bid ∧
    ((∀ b ∈ cal, b.bid = bid → b.status = .cancelled) → Alloc.release cal bid = cal) := by
  refine ⟨?_, ?_, ?_, ?_⟩
  · simp only [PLedger.release, List.filter_filter, Bool.and_self]
  · intro h
    simp only [PLedger.release]
    rw [filter_eq_self_of_forall _ _ (fun r hr => by simpa using h r hr)]
  · simp only [Alloc.release, List.map_map]
    refine congrArg (fun f => List.map f cal) (funext fun x => ?_)
    by_cases hx : x.bid == bid
    · simp [Function.comp, hx]
    · simp [Function.comp, hx]
  · intro h
    simp only [Alloc.release]
    refine map_eq_self_of_forall _ _ (fun b hb => ?_)
    by_cases hx : b.bid == bid
    · have := h b hb (by simpa using hx)
      simp [hx, ← this]
    · simp [hx]

/-- Witness for C8 at a concrete state: releasing reservation id 9 (absent) is a
no-op twice over, and releasing booking id 9 (already cancelled) is a no-op. -/
theorem claim_C8_witness :
    (PLedger.release (PLedger.release ⟨5, 5, [⟨1, 2, 3, 4⟩], [], []⟩ 9) 9 =
      PLedger.release ⟨5, 5, [⟨1, 2, 3, 4⟩], [], []⟩ 9) ∧
    PLedger.release ⟨5, 5, [⟨1, 2, 3, 4⟩], [], []⟩ 9 = ⟨5, 5, [⟨1, 2, 3, 4⟩], [], []⟩ ∧
    Alloc.release [⟨9, 1, 10, 20, .cancelled, 0, 0⟩] 9 = [⟨9, 1, 10, 20, .cancelled, 0, 0⟩] := by
  refine ⟨(claim_C8_release_idempotent ⟨5, 5, [⟨1, 2, 3, 4⟩], [], []⟩ 9 [] 0).1,
    (claim_C8_release_idempotent ⟨5, 5, [⟨1, 2, 3, 4⟩], [], []⟩ 9 [] 0).2.1 (by decide),
    (claim_C8_release_idempotent ⟨5, 5, [], [], []⟩ 0
      [⟨9, 1, 10, 20, .cancelled, 0, 0⟩] 9).2.2.2 (by decide)⟩

theorem sweep_id (l : PLedger) (now : Nat) (h : ∀ r ∈ l.reservations, now ≤ r.expiry) :
    l.sweep now = l := by
  simp only [PLedger.sweep]
  rw [filter_eq_self_of_forall _ _ (fun r hr => by simpa using h r hr)]

theorem reserve_ok_of_le (l : PLedger) (q ttl reqId rid now : Nat)
    (hsw : l.sweep now = l) (hq : (q : Int) ≤ l.available) :
    l.reserve q ttl reqId rid now =
      .ok (rid, { l with reservations := ⟨rid, q, reqId, now + ttl⟩ :: l.reservations }) := by
  simp [PLedger.reserve, hsw, hq]

theorem reserve_err_of_lt (l : PLedger) (q ttl reqId rid now : Nat)
    (hsw : l.sweep now = l) (hq : l.available < (q : Int)) :
    l.reserve q ttl reqId rid now = .error .InsufficientStock := by
  have : ¬((q : Int) ≤ l.available) := by omega
  simp [PLedger.reserve, hsw, this]

/-- Modelled from the spec: a batch of concurrent reserve attempts on one product.
Per-product check-and-deduct is linearizable (section 5), so any concurrent
execution is equivalent to performing the atomic reserves in some serial order;
this function performs them in list order and counts how many succeed and how many
fail with InsufficientStock. -/
def reserveCount (now ttl : Nat) : PLedger → List Nat → Nat × Nat
  | _, [] => (0, 0)
  | l, q :: qs =>
    match l.reserve q ttl 0 0 now with
    | .ok (_, l₂) => ((reserveCount now ttl l₂ qs).1 + 1, (reserveCount now ttl l₂ qs).2)
    | .error .InsufficientStock =>
      ((reserveCount now ttl l qs).1, (reserveCount now ttl l qs).2 + 1)
    | .error _ => reserveCount now ttl l qs

theorem reserveCount_unit (now ttl : Nat) (N : Nat) :
    ∀ l : PLedger, (∀ r ∈ l.reservations, now ≤ r.expiry) → 0 ≤ l.available →
    reserveCount now ttl l (List.replicate N 1) =
      (min l.available.toNat N, N - min l.available.toNat N) := by
  induction N with
  | zero => intro l _ _; simp [reserveCount]
  | succ N ih =>
    intro l hfr hpos
    have hsw : l.sweep now = l := sweep_id l now hfr
    rw [List.replicate_succ]
    by_cases hA : (1 : Int) ≤ l.available
    · have hres := reserve_ok_of_le l 1 ttl 0 0 now hsw hA
      have havail : ({ l with reservations := ⟨0, 1, 0, now + ttl⟩ :: l.reservations} :
          PLedger).available = l.available - 1 := by
        simp [PLedger.available, sumQty_cons]
        ring
      have hrec := ih { l with reservations := ⟨0, 1, 0, now + ttl⟩ :: l.reservations}
        (by
          intro r hr
          rcases List.mem_cons.mp hr with hr | hr
          · subst hr; exact Nat.le_add_right now ttl
          · exact hfr r hr)
        (by rw [havail]; omega)
      simp only [reserveCount, hres, hrec, havail]
      simp only [Prod.mk.injEq]
      constructor <;> omega
    · have hz : l.available < (1 : Int) := by omega
      have hres := reserve_err_of_lt l 1 ttl 0 0 now hsw hz
      have hrec := ih l hfr hpos
      simp only [reserveCount, hres, hrec]
      simp only [Prod.mk.injEq]
      constructor <;> omega

/-- C3: concurrent reserve attempts on one product serialize around the atomic
check-and-deduct; when N unit requests arrive against a stock of S < N, exactly S
of them succeed and the other N - S fail with InsufficientStock, and in the
concrete scenario of stock 2 with two requests of 2 units each, exactly one
succeeds and the other fails with InsufficientStock. -/
theorem claim_C3_no_overselling (S N now ttl : Nat) (h : S < N) :
    reserveCount now ttl (PLedger.init S) (List.replicate N 1) = (S, N - S) ∧
    reserveCount 0 10 (PLedger.init 2) [2, 2] = (1, 1) := by
  constructor
  · have hrc := reserveCount_unit now ttl N (PLedger.init S)
      (by simp [PLedger.init])
      (by simp [PLedger.init, PLedger.available, sumQty])
    have hA : (PLedger.init S).available.toNat = S := by
      simp [PLedger.init, PLedger.available, sumQty]
    rw [hrc, hA, min_eq_left (Nat.le_of_lt h)]
  · decide

/-- Witness for C3: stock 2 with three concurrent unit requests gives exactly two
successes and one InsufficientStock failure, and the stock-2 two-requests-of-2
scenario gives exactly one success and one failure. -/
theorem claim_C3_witness :
    reserveCount 0 5 (PLedger.init 2) (List.replicate 3 1) = (2, 1) ∧
    reserveCount 0 10 (PLedger.init 2) [2, 2] = (1, 1) :=
  claim_C3_no_overselling 2 3 0 5 (by decide)

/-- Modelled from the spec: the Catalog Store maps each product id to its
per-product ledger state (sections 2 and 3). -/
structure StoreEntry where
  pid : Nat
  ledger : PLedger
deriving DecidableEq, Repr

/-- Ledger state of a product, if the product exists. -/
def lookupP : List StoreEntry → Nat → Option PLedger
  | [], _ => none
  | e :: es, pid => if e.pid = pid then some e.ledger else lookupP es pid

/-- Replace the ledger of the first entry for the given product id. -/
def updateP : List StoreEntry → Nat → PLedger → List StoreEntry
  | [], _, _ => []
  | e :: es, pid, m => if e.pid = pid then { e with ledger := m } :: es else e :: updateP es pid m

/-- Modelled from the spec: one cart line's reservation: look the product up (failing
with ProductNotFound) and reserve against its ledger (section 4.4, Reserving). -/
def reserveLine (s : List StoreEntry) (pid qty reqId rid ttl now : Nat) :
    Except LedgerError (List StoreEntry) :=
  match lookupP s pid with
  | none => .error .ProductNotFound
  | some l =>
    match l.reserve qty ttl reqId rid now with
    | .ok (_, l₂) => .ok (updateP s pid l₂)
    | .error e => .error e

/-- Drop every reservation owned by the given request from one ledger. -/
def releaseLedgerReq (reqId : Nat) (l : PLedger) : PLedger :=
  { l with reservations := l.reservations.filter (fun r => decide (r.requestId ≠ reqId)) }

/-- Modelled from the spec: rollback of a request releases every reservation it
acquired, across all products, as an unordered set release (sections 4.4 and 9). -/
def releaseRequest (s : List StoreEntry) (reqId : Nat) : List StoreEntry :=
  s.map (fun e => { e with ledger := releaseLedgerReq reqId e.ledger })

/-- Modelled from the spec: the Orchestrator's Reserving loop over the cart lines:
reserve each (productId, quantity) line in turn, stopping at the first failure and
reporting the offending line's index (section 4.4).  Line `i` uses `i` as its
reservation id. -/
def reserveLinesGo (reqId ttl now : Nat) :
    List StoreEntry → Nat → List (Nat × Nat) → Option (LedgerError × Nat) × List StoreEntry
  | s, _, [] => (none, s)
  | s, i, (pid, q) :: rest =>
    match reserveLine s pid q reqId i ttl now with
    | .ok s₂ => reserveLinesGo reqId ttl now s₂ (i + 1) rest
    | .error e => (some (e, i), s)

/-- Modelled from the spec: the whole Reserving step: reserve every line; if any
line fails, release all reservations made so far for this request and surface the
error with the offending line identified — all-or-nothing (sections 4.4 and 7). -/
def reserveCart (s : List StoreEntry) (reqId ttl now : Nat) (lines : List (Nat × Nat)) :
    Option (LedgerError × Nat) × List StoreEntry :=
  match reserveLinesGo reqId ttl now s 0 lines with
  | (none, s₂) => (none, s₂)
  | (some ei, s₂) => (some ei, releaseRequest s₂ reqId)

theorem lookupP_mem (s : List StoreEntry) (pid : Nat) (l : PLedger)
    (h : lookupP s pid = some l) : ∃ e ∈ s, e.pid = pid ∧ e.ledger = l := by
  induction s with
  | nil => simp [lookupP] at h
  | cons e es ih =>
    by_cases he : e.pid = pid
    · simp only [lookupP, he, if_pos] at h
      exact ⟨e, List.mem_cons_self e es, he, Option.some.inj h⟩
    · simp only [lookupP, he, if_neg, not_false_eq_true] at h
      obtain ⟨e₂, hmem, hp, hl⟩ := ih h
      exact ⟨e₂, List.mem_cons_of_mem e hmem, hp, hl⟩

theorem mem_updateP (s : List StoreEntry) (pid : Nat) (m : PLedger) (x : StoreEntry)
    (h : x ∈ updateP s pid m) : x ∈ s ∨ x.ledger = m := by
  induction s with
  | nil => simp [updateP] at h
  | cons e es ih =>
    by_cases he : e.pid = pid
    · simp only [updateP, he, if_pos] at h
      rcases List.mem_cons.mp h with h | h
      · right; rw [h]
      · left; exact List.mem_cons_of_mem e h
    · simp only [updateP, he, if_neg, not_false_eq_true] at h
      rcases List.mem_cons.mp h with h | h
      · left; rw [h]; exact List.mem_cons_self e es
      · rcases ih h with h | h
        · left; exact List.mem_cons_of_mem e h
        · right; exact h

theorem releaseRequest_updateP (s : List StoreEntry) (pid reqId : Nat) (m : PLedger) :
    releaseRequest (updateP s pid m) reqId =
      updateP (releaseRequest s reqId) pid (releaseLedgerReq reqId m) := by
  induction s with
  | nil => rfl
  | cons e es ih =>
    by_cases he : e.pid = pid
    · simp [releaseRequest, updateP, he]
    · have h1 : updateP (e :: es) pid m = e :: updateP es pid m := by
        simp [updateP, he]
      have h2 : releaseRequest (e :: updateP es pid m) reqId =
          { e with ledger := releaseLedgerReq reqId e.ledger } ::
            releaseRequest (updateP es pid m) reqId := rfl
      have h3 : releaseRequest (e :: es) reqId =
          { e with ledger := releaseLedgerReq reqId e.ledger } :: releaseRequest es reqId := rfl
      have h4 : updateP ({ e with ledger := releaseLedgerReq reqId e.ledger } ::
          releaseRequest es reqId) pid (releaseLedgerReq reqId m) =
          { e with ledger := releaseLedgerReq reqId e.ledger } ::
            updateP (releaseRequest es reqId) pid (releaseLedgerReq reqId m) := by
        simp [updateP, he]
      rw [h1, h2, ih, h3, h4]

theorem updateP_releaseRequest_self (s : List StoreEntry) (pid reqId : Nat) (l : PLedger)
    (h : lookupP s pid = some l) :
    updateP (releaseRequest s reqId) pid (releaseLedgerReq reqId l) =
      releaseRequest s reqId := by
  induction s with
  | nil => rfl
  | cons e es ih =>
    by_cases he : e.pid = pid
    · simp only [lookupP, he, if_pos] at h
      obtain rfl := Option.some.inj h
      simp [releaseRequest, updateP, he]
    · simp only [lookupP, he, if_neg, not_false_eq_true] at h
      simp only [releaseRequest, List.map_cons, updateP, he, if_neg, not_false_eq_true]
      rw [show (List.map (fun e => { e with ledger := releaseLedgerReq reqId e.ledger }) es) =
        releaseRequest es reqId from rfl, ih h]

theorem releaseLedgerReq_cons_own (reqId rid q ttl now : Nat) (l : PLedger) :
    releaseLedgerReq reqId
      { l with reservations := ⟨rid, q, reqId, now + ttl⟩ :: l.reservations } =
      releaseLedgerReq reqId l := by
  simp [releaseLedgerReq, List.filter_cons]

theorem releaseRequest_eq_self (s : List StoreEntry) (reqId : Nat)
    (h : ∀ e ∈ s, ∀ r ∈ e.ledger.reservations, r.requestId ≠ reqId) :
    releaseRequest s reqId = s := by
  refine map_eq_self_of_forall _ _ (fun e he => ?_)
  have : releaseLedgerReq reqId e.ledger = e.ledger := by
    simp only [releaseLedgerReq]
    rw [filter_eq_self_of_forall _ _ (fun r hr => by simpa using h e he r hr)]
  rw [this]

theorem reserveLine_ok_inv (s : List StoreEntry) (pid q reqId rid ttl now : Nat)
    (s₂ : List StoreEntry) :
    reserveLine s pid q reqId rid ttl now = .ok s₂ →
    ∃ l l₂ rp, lookupP s pid = some l ∧ l.reserve q ttl reqId rid now = .ok (rp, l₂) ∧
      s₂ = updateP s pid l₂ := by
  simp only [reserveLine]
  split
  · intro h; simp at h
  · next l hlook =>
    split
    · next fst l₂ hres =>
      intro h
      exact ⟨l, l₂, fst, hlook, hres, (Except.ok.inj h).symm⟩
    · next e hres => intro h; simp at h

theorem reserveLinesGo_rollback (reqId ttl now : Nat) (lines : List (Nat × Nat)) :
    ∀ (s : List StoreEntry) (i : Nat),
      (∀ e ∈ s, ∀ r ∈ e.ledger.reservations, now ≤ r.expiry) →
      ∀ res s₁, reserveLinesGo reqId ttl now s i lines = (res, s₁) →
        releaseRequest s₁ reqId = releaseRequest s reqId ∧
        ∀ err j, res = some (err, j) → i ≤ j ∧ j < i + lines.length := by
  induction lines with
  | nil =>
    intro s i _ res s₁ h
    simp only [reserveLinesGo] at h
    obtain ⟨rfl, rfl⟩ := Prod.mk.inj h
    exact ⟨rfl, by simp⟩
  | cons line rest ih =>
    obtain ⟨pid, q⟩ := line
    intro s i hlive res s₁ h
    simp only [reserveLinesGo] at h
    cases hline : reserveLine s pid q reqId i ttl now with
    | error e =>
      rw [hline] at h
      obtain ⟨rfl, rfl⟩ := Prod.mk.inj h
      refine ⟨rfl, fun err j hj => ?_⟩
      obtain ⟨-, rfl⟩ := Prod.mk.inj (Option.some.inj hj)
      simp
    | ok s₂ =>
      rw [hline] at h
      obtain ⟨l, l₂, rp, hlook, hres, rfl⟩ := reserveLine_ok_inv s pid q reqId i ttl now s₂ hline
      obtain ⟨el, hel, helpid, helled⟩ := lookupP_mem s pid l hlook
      have hlswid : l.sweep now = l := by
        refine sweep_id l now (fun r hr => hlive el hel r ?_)
        rw [helled]; exact hr
      simp only [PLedger.reserve, hlswid] at hres
      by_cases hq : (q : Int) ≤ l.available
      · simp only [hq, if_pos] at hres
        obtain ⟨-, rfl⟩ := Prod.mk.inj (Except.ok.inj hres)
        have hlive₂ : ∀ e ∈ updateP s pid
            { l with reservations := ⟨i, q, reqId, now + ttl⟩ :: l.reservations },
            ∀ r ∈ e.ledger.reservations, now ≤ r.expiry := by
          intro e he r hr
          rcases mem_updateP _ _ _ e he with he₂ | he₂
          · exact hlive e he₂ r hr
          · rw [he₂] at hr
            rcases List.mem_cons.mp hr with hr | hr
            · subst hr; exact Nat.le_add_right now ttl
            · refine hlive el hel r ?_
              rw [helled]; exact hr
        obtain ⟨hrel, hbound⟩ := ih _ (i + 1) hlive₂ res s₁ h
        constructor
        · rw [hrel, releaseRequest_updateP, releaseLedgerReq_cons_own,
            updateP_releaseRequest_self s pid reqId l hlook]
        · intro err j hj
          obtain ⟨h1, h2⟩ := hbound err j hj
          simp only [List.length_cons]
          omega
      · simp [hq] at hres

/-- C4: all-or-nothing reservation across a multi-line cart: when any line of the
request fails, every reservation already acquired for the request is released and
the store is restored exactly to its pre-request state, while the error identifies
the offending line by its index. -/
theorem claim_C4_atomic_rollback (s : List StoreEntry) (reqId ttl now : Nat)
    (lines : List (Nat × Nat))
    (hfresh : ∀ e ∈ s, ∀ r ∈ e.ledger.reservations, r.requestId ≠ reqId)
    (hlive : ∀ e ∈ s, ∀ r ∈ e.ledger.reservations, now ≤ r.expiry)
    (err : LedgerError) (i : Nat) (s₁ : List StoreEntry)
    (hfail : reserveCart s reqId ttl now lines = (some (err, i), s₁)) :
    s₁ = s ∧ i < lines.length := by
  simp only [reserveCart] at hfail
  cases hgo : reserveLinesGo reqId ttl now s 0 lines with
  | mk res s₂ =>
    rw [hgo] at hfail
    cases res with
    | none => simp at hfail
    | some ei =>
      obtain ⟨hei, rfl⟩ := Prod.mk.inj hfail
      obtain ⟨hrel, hbound⟩ := reserveLinesGo_rollback reqId ttl now lines s 0 hlive _ s₂ hgo
      obtain ⟨-, hlen⟩ := hbound err i (by rw [← hei])
      refine ⟨?_, by omega⟩
      rw [hrel, releaseRequest_eq_self s reqId hfresh]

/-- Witness for C4: a store with one product of stock 1, and a request of two lines
(1 unit, then 5 units): the second line fails with InsufficientStock at index 1 and
the rollback returns the store unchanged. -/
theorem claim_C4_witness :
    reserveCart [⟨1, PLedger.init 1⟩] 7 10 0 [(1, 1), (1, 5)] =
      (some (LedgerError.InsufficientStock, 1), [⟨1, PLedger.init 1⟩]) ∧
    ([⟨1, PLedger.init 1⟩] : List StoreEntry) = [⟨1, PLedger.init 1⟩] ∧ (1 : Nat) < 2 :=
  ⟨by decide, claim_C4_atomic_rollback [⟨1, PLedger.init 1⟩] 7 10 0 [(1, 1), (1, 5)]
    (by decide) (by decide) LedgerError.InsufficientStock 1 [⟨1, PLedger.init 1⟩] (by decide)⟩

/-- Discount kinds carried by a product (the spec's tagged variant; `none` is
represented by the Option wrapper, matching the nullable field in the source). -/
inductive DiscountType where
  | percentage
  | fixed
deriving DecidableEq, Repr

/-- Product record as the product detail page consumes it
(src/unnamed/part_001): base price, nullable discount type and value, and the
inventory count.  Monetary values are rationals. -/
structure Product where
  basePrice : ℚ
  discountType : Option DiscountType
  discountValue : Option ℚ
  inventoryCount : Nat
deriving DecidableEq, Repr

/-- effectivePrice from the product detail page (src/unnamed/part_001, line 106):
`const effectivePrice = product.basePrice;` — the base price unchanged, whatever
the discount fields hold. -/
def effectivePrice (p : Product) : ℚ :=
  p.basePrice

/-- hasDiscount from the product detail page (src/unnamed/part_001, lines 107-108):
truthy discount type and a positive discount value; it only gates the OFF badge
next to the price, not the price itself. -/
def hasDiscount (p : Product) : Bool :=
  p.discountType.isSome &&
    (match p.discountValue with
     | some v => decide (0 < v)
     | none => false)

/-- Unit price as the specification's priceLine contract words it (section 4.3):
percentage discounts scale the base price by (1 - value/100), fixed discounts
subtract the value clamped at zero, and no discount leaves the base price.  Stated
only for comparison with the source's effectivePrice. -/
def specUnitPrice (p : Product) : ℚ :=
  match p.discountType with
  | some .percentage => p.basePrice * (1 - p.discountValue.getD 0 / 100)
  | some .fixed => max 0 (p.basePrice - p.discountValue.getD 0)
  | none => p.basePrice

/-- A concrete product: $100 base price with a 10 percent discount. -/
def sampleDiscounted : Product :=
  ⟨100, some .percentage, some 10, 5⟩

/-- C5 counterexample: on the $100 product with a 10 percent discount the page's
unit price is $100, not the $90 the discount-adjusted priceLine contract gives, so
the claim fails on the code at this input. -/
theorem claim_C5_counterexample :
    effectivePrice sampleDiscounted ≠ specUnitPrice sampleDiscounted ∧
    effectivePrice sampleDiscounted = 100 ∧ specUnitPrice sampleDiscounted = 90 := by
  refine ⟨?_, ?_, ?_⟩ <;> norm_num [effectivePrice, specUnitPrice, sampleDiscounted]

/-- C5 (amended): the page's unit price is always the bare base price: the discount
fields never adjust it, so it agrees with the spec's discount-adjusted priceLine
exactly on products whose discount type is unset. -/
theorem claim_C5_unit_price_is_base (p : Product) (h : p.discountType = none) :
    effectivePrice p = p.basePrice ∧ effectivePrice p = specUnitPrice p := by
  refine ⟨rfl, ?_⟩
  simp [effectivePrice, specUnitPrice, h]

/-- Witness for C5 (amended) on a concrete undiscounted product. -/
theorem claim_C5_witness :
    effectivePrice ⟨50, none, none, 1⟩ = 50 ∧
    effectivePrice ⟨50, none, none, 1⟩ = specUnitPrice ⟨50, none, none, 1⟩ :=
  claim_C5_unit_price_is_base ⟨50, none, none, 1⟩ rfl

/-- Price display from the product detail page (src/unnamed/part_001, lines
160-173): `parseFloat(effectivePrice.toString()).toFixed(2)`.  For a JS number x,
parseFloat(x.toString()) is x itself, and toFixed(2) renders it rounded to two
decimal places; the rendered amount is modelled by its value in cents. -/
def displayCents (p : Product) : ℤ :=
  round (effectivePrice p * 100)

/-- C6 counterexample: the displayed price of the $100 base, 10 percent discount
product is $100.00 (10000 cents), not the $90.00 the claim requires: the discount
is not applied anywhere on this path. -/
theorem claim_C6_counterexample :
    displayCents sampleDiscounted = 10000 ∧ displayCents sampleDiscounted ≠ 9000 := by
  constructor <;> norm_num [displayCents, effectivePrice, sampleDiscounted]

/-- C6 (amended): the displayed amount is a pure function of the product — the
model recomputes the identical cents value on every evaluation — and for every
product with a $100 base price it is exactly $100.00 (10000 cents) regardless of
the discount fields; the $90.00 figure of the claim does not occur, and the source
computes this figure through JS floating-point parseFloat/toFixed rather than
fixed-point arithmetic. -/
theorem claim_C6_display_deterministic (p : Product) (h : p.basePrice = 100) :
    displayCents p = 10000 := by
  norm_num [displayCents, effectivePrice, h]

/-- Witness for C6 (amended) at the discounted $100 product. -/
theorem claim_C6_witness : displayCents sampleDiscounted = 10000 :=
  claim_C6_display_deterministic sampleDiscounted rfl

/-- Review payload as the storefront receives it (src/frontend/src/lib/reviews.ts);
only the fields the embedded functions inspect are kept. -/
structure Review where
  id : String
  rating : Nat
  reviewText : Option String
deriving DecidableEq, Repr

/-- Paged review-list response from getProductReviews
(src/frontend/src/lib/reviews.ts, lines 14-21). -/
structure ReviewListResponse where
  reviews : List Review
  total : Nat
  page : Nat
  pageSize : Nat
  totalPages : Nat
deriving DecidableEq, Repr

/-- Network outcome of the getProductReviews call inside hasUserReviewedProduct:
the axios request either resolves with a response or throws. -/
inductive FetchOutcome where
  | ok (r : ReviewListResponse)
  | err (msg : String)
deriving DecidableEq, Repr

/-- hasUserReviewedProduct from src/frontend/src/lib/reviews.ts lines 131-145: it
fetches the first 100 reviews, discards the response, and returns false; the catch
branch also returns false.  The fetch outcome is passed explicitly. -/
def hasUserReviewedProduct (_productId _token : String) (fetch : FetchOutcome) : Bool :=
  match fetch with
  | .ok _ => false
  | .err _ => false

/-- C9: the client-side duplicate-review check always answers false — on the
normal path and on any fetch error — for every product id and token, deferring
duplicate detection entirely to the backend. -/
theorem claim_C9_hasUserReviewed_false (productId token : String) (fetch : FetchOutcome) :
    hasUserReviewedProduct productId token fetch = false := by
  cases fetch <;> rfl

/-- Request body of createReview (src/frontend/src/lib/reviews.ts, lines 9-12). -/
structure ReviewCreateData where
  rating : Nat
  reviewText : Option String
deriving DecidableEq, Repr

/-- Outcome of the awaited createReview call in the submission handler: the axios
post either resolves or throws, and a thrown error may carry a response body with
a detail message (error.response.data.detail). -/
inductive CreateOutcome where
  | ok
  | err (detail : Option String)
deriving DecidableEq, Repr

/-- Observable effect of one run of ReviewSubmissionForm.handleSubmit: the payload
sent to createReview if the call was made, whether the success status was set,
whether the form fields were reset, and the error or success message shown. -/
structure SubmitResult where
  request : Option ReviewCreateData
  success : Bool
  formReset : Bool
  message : Option String
deriving DecidableEq, Repr

/-- Drop leading whitespace characters from a character list. -/
def trimLeadChars : List Char → List Char
  | [] => []
  | c :: cs => if c.isWhitespace then trimLeadChars cs else c :: cs

/-- JS String.prototype.trim as the form calls it (`reviewText.trim()`): strip
whitespace from both ends of the string. -/
def jsTrim (s : String) : String :=
  ⟨(trimLeadChars (trimLeadChars s.data).reverse).reverse⟩

/-- handleSubmit from ReviewSubmissionForm (src/unnamed/part_002, lines 581-638):
a trimmed review text that is non-empty but shorter than 10 characters sets an
error message and returns before any request; otherwise createReview is called
exactly once with the trimmed text (undefined when empty), and on success the form
is reset while on a thrown error the response detail (or a generic message) is
shown without resetting the form. -/
def handleSubmit (rating : Nat) (reviewText : String) (outcome : CreateOutcome) :
    SubmitResult :=
  let t := jsTrim reviewText
  if 0 < t.length ∧ t.length < 10 then
    { request := none, success := false, formReset := false,
      message := some ("Review text must be at least 10 characters long.") }
  else
    match outcome with
    | .ok =>
      { request := some ⟨rating, if t = "" then none else some t⟩,
        success := true, formReset := true,
        message := some ("Thank you for your review! It will be visible after admin approval.") }
    | .err detail =>
      { request := some ⟨rating, if t = "" then none else some t⟩,
        success := false, formReset := false,
        message := some (detail.getD ("Failed to submit review. Please try again.")) }

/-- C10: when the trimmed review text is non-empty and shorter than 10 characters
the handler sets the length error and never calls createReview (no request, no
reset); when the trimmed text is empty the request is sent with reviewText absent;
and when it has at least 10 characters the request is sent with the trimmed text. -/
theorem claim_C10_review_validation (rating : Nat) (reviewText : String)
    (outcome : CreateOutcome) :
    (0 < (jsTrim reviewText).length → (jsTrim reviewText).length < 10 →
      handleSubmit rating reviewText outcome =
        { request := none, success := false, formReset := false,
          message := some ("Review text must be at least 10 characters long.") }) ∧
    (jsTrim reviewText = "" →
      (handleSubmit rating reviewText outcome).request = some ⟨rating, none⟩) ∧
    (10 ≤ (jsTrim reviewText).length →
      (handleSubmit rating reviewText outcome).request =
        some ⟨rating, some (jsTrim reviewText)⟩) := by
  refine ⟨?_, ?_, ?_⟩
  · intro h1 h2
    simp only [handleSubmit]
    rw [if_pos ⟨h1, h2⟩]
  · intro h
    have hc : ¬(0 < (jsTrim reviewText).length ∧ (jsTrim reviewText).length < 10) := by
      rw [h]; simp
    simp only [handleSubmit]
    rw [if_neg hc]
    cases outcome <;> simp [h]
  · intro h
    have hne : ¬(jsTrim reviewText = "") := by
      intro he
      rw [he] at h
      simp at h
    have hc : ¬(0 < (jsTrim reviewText).length ∧ (jsTrim reviewText).length < 10) := by
      intro hcon
      omega
    simp only [handleSubmit]
    rw [if_neg hc]
    cases outcome <;> simp [hne]

/-- Witness for C10: a five-character review is rejected without a request, an
all-whitespace review is sent with no text, and a long review is sent trimmed. -/
theorem claim_C10_witness :
    handleSubmit 5 ("  short  ") CreateOutcome.ok =
      { request := none, success := false, formReset := false,
        message := some ("Review text must be at least 10 characters long.") } ∧
    (handleSubmit 4 ("   ") CreateOutcome.ok).request = some ⟨4, none⟩ ∧
    (handleSubmit 3 ("lovely lipstick") CreateOutcome.ok).request =
      some ⟨3, some (jsTrim ("lovely lipstick"))⟩ :=
  ⟨(claim_C10_review_validation 5 ("  short  ") CreateOutcome.ok).1 (by decide) (by decide),
   (claim_C10_review_validation 4 ("   ") CreateOutcome.ok).2.1 (by decide),
   (claim_C10_review_validation 3 ("lovely lipstick") CreateOutcome.ok).2.2 (by decide)⟩

end GlamByLynn
